import Mathlib

/-!
Shallow embedding of the Kindle notebook HTML parser and Markdown renderer
(`parseKindleHtml` / `kindleNotebookToMarkdown` and their helpers).

JavaScript strings are modelled as `List Char` (`Str`).  Each JS regular
expression used by the source is hand-compiled into an explicit scanner
over `Str` that follows the regex engine's semantics (leftmost match,
greedy/lazy quantifier behaviour, case-insensitive flag where present).
JS truthiness of optional strings (`undefined`/empty string are falsy) is
modelled by `jsTruthy`.
-/

namespace Kindle

abbrev Str := List Char

def str (s : String) : Str := s.data

/-- JS truthiness of a `string | undefined` value: `undefined` and `""` are falsy. -/
def jsTruthy : Option Str → Bool
  | some s => !s.isEmpty
  | none => false

/-- Case-insensitive character comparison, as used by the `/i` regex flag. -/
def charCI (a b : Char) : Bool := a.toLower == b.toLower

/-- `prefixCI pat s`: `s` starts with `pat`, comparing case-insensitively. -/
def prefixCI : Str → Str → Bool
  | [], _ => true
  | _ :: _, [] => false
  | p :: ps, c :: cs => charCI p c && prefixCI ps cs

/-- `startsWithLit pat s`: `s` starts with `pat`, comparing exactly. -/
def startsWithLit : Str → Str → Bool
  | [], _ => true
  | _ :: _, [] => false
  | p :: ps, c :: cs => p == c && startsWithLit ps cs

def isQuote (c : Char) : Bool := c == '"' || c == '\''

/-- The JS regex `\s` character class (also the set trimmed by `String.prototype.trim`). -/
def isJsSpace (c : Char) : Bool :=
  let n := c.toNat
  n == 9 || n == 10 || n == 11 || n == 12 || n == 13 || n == 32 || n == 160 ||
  n == 0x1680 || (decide (0x2000 ≤ n) && decide (n ≤ 0x200A)) ||
  n == 0x2028 || n == 0x2029 || n == 0x202F || n == 0x205F || n == 0x3000 || n == 0xFEFF

/-- The JS regex `\w` character class. -/
def isWordChar (c : Char) : Bool :=
  (decide ('a' ≤ c) && decide (c ≤ 'z')) ||
  (decide ('A' ≤ c) && decide (c ≤ 'Z')) || c.isDigit || c == '_'

/-- The JS regex `[\d-]` character class. -/
def isDigitDash (c : Char) : Bool := c.isDigit || c == '-'

/-- Split at the first occurrence of character `t`: `some (before, after)`. -/
def splitAtChar (t : Char) : Str → Option (Str × Str)
  | [] => none
  | c :: cs =>
    if c == t then some ([], cs)
    else (splitAtChar t cs).map (fun pr => (c :: pr.1, pr.2))

/-- Split at the first case-insensitive occurrence of the pattern
`p0 :: prest`: `some (before, after)` with the matched characters removed. -/
def splitFirstOccCI (p0 : Char) (prest : Str) : Str → Option (Str × Str)
  | [] => none
  | c :: cs =>
    if prefixCI (p0 :: prest) (c :: cs) then some ([], cs.drop prest.length)
    else (splitFirstOccCI p0 prest cs).map (fun pr => (c :: pr.1, pr.2))

/-- All case-insensitive occurrence splits of `p0 :: prest`, in order:
each element is `(before, matchedSource, after)`.  Enumerating these in
order is exactly how a lazy `[\s\S]*?` before the pattern extends on
backtracking. -/
def occSplits (p0 : Char) (prest : Str) : Str → List (Str × Str × Str)
  | [] => []
  | c :: cs =>
    let tailSplits := (occSplits p0 prest cs).map (fun t => (c :: t.1, t.2.1, t.2.2))
    if prefixCI (p0 :: prest) (c :: cs) then
      ([], (c :: cs).take (prest.length + 1), cs.drop prest.length) :: tailSplits
    else tailSplits

/-- Leftmost-match search: try the matcher `f` at every start position,
left to right, as a JS regex engine does for a non-anchored pattern. -/
def scanFirst (f : Str → Option α) : Str → Option α
  | [] => f []
  | c :: cs =>
    match f (c :: cs) with
    | some r => some r
    | none => scanFirst f cs

/-- Try `f n, f (n-1), ..., f 0` and return the first success: the
backtracking order of a greedy quantifier that consumed `n` characters. -/
def firstSomeDesc (f : Nat → Option α) : Nat → Option α
  | 0 => f 0
  | n + 1 =>
    match f (n + 1) with
    | some r => some r
    | none => firstSomeDesc f n

/-- One global literal replacement pass (`String.prototype.replace` with a
`/g` literal pattern `p0 :: prest`, case-sensitive): leftmost,
non-overlapping, scanning resumes after each replacement. -/
def replaceAllGo (p0 : Char) (prest rep : Str) : Nat → Str → Str
  | 0, s => s
  | _, [] => []
  | fuel + 1, c :: cs =>
    if startsWithLit (p0 :: prest) (c :: cs) then
      rep ++ replaceAllGo p0 prest rep fuel (cs.drop prest.length)
    else c :: replaceAllGo p0 prest rep fuel cs

def replaceAllLit (p0 : Char) (prest rep s : Str) : Str :=
  replaceAllGo p0 prest rep (s.length + 1) s

/-- `decodeEntities` from the source: six global replaces, in this order
(`&nbsp;`, `&lt;`, `&gt;`, `&amp;`, `&quot;`, `&#39;`). -/
def decodeEntities (t : Str) : Str :=
  replaceAllLit '&' (str "#39;") (str "'")
    (replaceAllLit '&' (str "quot;") (str "\"")
      (replaceAllLit '&' (str "amp;") (str "&")
        (replaceAllLit '&' (str "gt;") (str ">")
          (replaceAllLit '&' (str "lt;") (str "<")
            (replaceAllLit '&' (str "nbsp;") (str " ") t)))))

/-- `html.replace(/<[^>]*>/g, ' ')`: each `<`, together with everything up
to the first following `>`, becomes one space; a `<` with no later `>`
stays (the regex cannot match there). -/
def stripTagsGo : Nat → Str → Str
  | 0, s => s
  | _, [] => []
  | fuel + 1, c :: cs =>
    if c == '<' then
      match splitAtChar '>' cs with
      | some pr => ' ' :: stripTagsGo fuel pr.2
      | none => c :: stripTagsGo fuel cs
    else c :: stripTagsGo fuel cs

def stripTags (s : Str) : Str := stripTagsGo (s.length + 1) s

/-- `.replace(/\s+/g, ' ')`: collapse each maximal whitespace run to one space. -/
def collapseWsGo : Bool → Str → Str
  | _, [] => []
  | prev, c :: cs =>
    if isJsSpace c then
      if prev then collapseWsGo true cs else ' ' :: collapseWsGo true cs
    else c :: collapseWsGo false cs

def collapseWs (s : Str) : Str := collapseWsGo false s

/-- `String.prototype.trim`. -/
def trimWs (s : Str) : Str :=
  ((s.dropWhile isJsSpace).reverse.dropWhile isJsSpace).reverse

/-- `cleanText` from the source: strip tags, decode entities, collapse
whitespace, trim. -/
def cleanText (html : Str) : Str :=
  trimWs (collapseWs (decodeEntities (stripTags html)))

/-- Matcher for `/Keyword\s+([\d-]+)/i` at one position: the keyword,
then at least one whitespace, then a captured maximal nonempty run of
digits and hyphens. -/
def locTokenAfter (kw : Str) (cs : Str) : Option Str :=
  if prefixCI kw cs then
    let r := cs.drop kw.length
    let sp := r.takeWhile isJsSpace
    if sp.isEmpty then none
    else
      let tok := (r.drop sp.length).takeWhile isDigitDash
      if tok.isEmpty then none else some tok
  else none

/-- `extractLocation`: first match of `/Location\s+([\d-]+)/i`. -/
def extractLocation (heading : Str) : Option Str :=
  scanFirst (locTokenAfter (str "Location")) heading

/-- `extractPage`: first match of `/Page\s+([\d-]+)/i`. -/
def extractPage (heading : Str) : Option Str :=
  scanFirst (locTokenAfter (str "Page")) heading

/-- One alternative of the color alternation: case-insensitive color word
followed by `)`, capturing the source characters of the word. -/
def colorCapAt1 (w : Str) (r : Str) : Option Str :=
  if prefixCI w r then
    match r.drop w.length with
    | ')' :: _ => some (r.take w.length)
    | _ => none
  else none

def colorNames : List Str :=
  [str "Yellow", str "Blue", str "Pink", str "Orange", str "Green"]

/-- The regex alternation, tried left to right. -/
def colorTryList : List Str → Str → Option Str
  | [], _ => none
  | w :: ws, r =>
    match colorCapAt1 w r with
    | some cap => some cap
    | none => colorTryList ws r

/-- Matcher for `/\((Yellow|Blue|Pink|Orange|Green)\)/i` at one position.
The capture group returns the source substring, in its source casing. -/
def colorAt : Str → Option Str
  | [] => none
  | c :: r => if c == '(' then colorTryList colorNames r else none

/-- `extractColor`: first match of the parenthesized color pattern. -/
def extractColor (heading : Str) : Option Str := scanFirst colorAt heading

/-- `/^note\b/i.test(heading)`: starts with "note" case-insensitively,
followed by a word boundary. -/
def startsNoteWord (heading : Str) : Bool :=
  prefixCI (str "note") heading &&
    (match heading.drop 4 with
     | [] => true
     | c :: _ => !isWordChar c)

/-- Matcher for `class=["']NAME["'][^>]*>([\s\S]*?)<\/div>` for one NAME
alternative at one position (everything after the `class=["']` part). -/
def classNameCap (name : Str) (r1 : Str) : Option Str :=
  if prefixCI name r1 then
    match r1.drop name.length with
    | q2 :: r2 =>
      if isQuote q2 then
        match r2.dropWhile (fun c => !(c == '>')) with
        | '>' :: r3 => (splitFirstOccCI '<' (str "/div>") r3).map (fun pr => pr.1)
        | _ => none
      else none
    | [] => none
  else none

/-- Matcher for `/class=["'](?:NAME1|NAME2)["'][^>]*>([\s\S]*?)<\/div>/i`
at one position. -/
def classPairCapAt (name1 name2 : Str) (cs : Str) : Option Str :=
  if prefixCI (str "class=") cs then
    match cs.drop 6 with
    | q1 :: r1 =>
      if isQuote q1 then
        match classNameCap name1 r1 with
        | some cap => some cap
        | none => classNameCap name2 r1
      else none
    | [] => none
  else none

def titleClassAt (cs : Str) : Option Str :=
  classPairCapAt (str "kp-notebook-title") (str "bookTitle") cs

/-- Matcher for `/<title[^>]*>([\s\S]*?)<\/title>/i` at one position. -/
def titleTagAt (cs : Str) : Option Str :=
  if prefixCI (str "<title") cs then
    match (cs.drop 6).dropWhile (fun c => !(c == '>')) with
    | '>' :: r3 => (splitFirstOccCI '<' (str "/title>") r3).map (fun pr => pr.1)
    | _ => none
  else none

/-- `extractTitle`: first class-marker pattern, else generic title tag,
else the fixed default, each passed through `cleanText`. -/
def extractTitle (html : Str) : Str :=
  match scanFirst titleClassAt html with
  | some cap => cleanText cap
  | none =>
    match scanFirst titleTagAt html with
    | some cap => cleanText cap
    | none => cleanText (str "Kindle Notebook")

def authorClassAt (cs : Str) : Option Str :=
  classPairCapAt (str "authors") (str "kp-notebook-subtitle") cs

/-- Continuation of the meta-author regex after `content=["']`:
`([^"']*)["'][^>]*>`. -/
def metaContent (r4 : Str) : Option Str :=
  if prefixCI (str "content=") r4 then
    match r4.drop 8 with
    | q :: r5 =>
      if isQuote q then
        let cap := r5.takeWhile (fun c => !(isQuote c))
        match r5.dropWhile (fun c => !(isQuote c)) with
        | _ :: r6 =>
          match r6.dropWhile (fun c => !(c == '>')) with
          | '>' :: _ => some cap
          | _ => none
        | [] => none
      else none
    | [] => none
  else none

/-- Greedy `[^>]*` before `content=`: longest first. -/
def metaContentSearch (r3 : Str) : Option Str :=
  firstSomeDesc (fun m => metaContent (r3.drop m)) (r3.takeWhile (fun c => !(c == '>'))).length

/-- Continuation after `<meta[^>]*` at a chosen split: `name=["']author["']`. -/
def metaName (r1 : Str) : Option Str :=
  if prefixCI (str "name=") r1 then
    match r1.drop 5 with
    | q :: r2 =>
      if isQuote q then
        if prefixCI (str "author") r2 then
          match r2.drop 6 with
          | q2 :: r3 => if isQuote q2 then metaContentSearch r3 else none
          | [] => none
        else none
      else none
    | [] => none
  else none

/-- Matcher for
`/<meta[^>]*name=["']author["'][^>]*content=["']([^"']*)["'][^>]*>/i`
at one position, with greedy `[^>]*` backtracking (longest first). -/
def metaAuthorAt (cs : Str) : Option Str :=
  if prefixCI (str "<meta") cs then
    let r := cs.drop 5
    firstSomeDesc (fun n => metaName (r.drop n)) (r.takeWhile (fun c => !(c == '>'))).length
  else none

/-- `extractAuthor`: class markers first, then meta tag; the raw capture
is tested for truthiness before `cleanText` is applied. -/
def extractAuthor (html : Str) : Option Str :=
  match scanFirst authorClassAt html with
  | some a => if a.isEmpty then none else some (cleanText a)
  | none =>
    match scanFirst metaAuthorAt html with
    | some a => if a.isEmpty then none else some (cleanText a)
    | none => none

/-- Occurrence of `class=["']NAME["']` (case-insensitive) at one position. -/
def classAttrAt (name : Str) (cs : Str) : Bool :=
  prefixCI (str "class=") cs &&
    (match cs.drop 6 with
     | q1 :: r1 =>
       isQuote q1 && prefixCI name r1 &&
         (match r1.drop name.length with
          | q2 :: _ => isQuote q2
          | [] => false)
     | [] => false)

/-- `class=["']NAME["']` occurs somewhere in the (non-`>`) span of an open tag. -/
def hasClassCI (name : Str) : Str → Bool
  | [] => classAttrAt name []
  | c :: cs => classAttrAt name (c :: cs) || hasClassCI name cs

/-- The part of the heading/body block regex after the heading capture's
candidate `</div>`: `\s*<div[^>]*class=["']noteText["'][^>]*>([\s\S]*?)<\/div>`.
Returns `(bodyCapture, restAfterMatch)`. -/
def tryBody (post : Str) : Option (Str × Str) :=
  let w := post.dropWhile isJsSpace
  if prefixCI (str "<div") w then
    let r := w.drop 4
    if hasClassCI (str "noteText") (r.takeWhile (fun c => !(c == '>'))) then
      match r.dropWhile (fun c => !(c == '>')) with
      | c :: r2 =>
        if c == '>' then (splitFirstOccCI '<' (str "/div>") r2).map (fun pr => (pr.1, pr.2))
        else none
      | [] => none
    else none
  else none

/-- The lazy heading capture `([\s\S]*?)<\/div>` followed by `tryBody`:
candidate `</div>` occurrences are tried left to right, extending the
capture on failure, exactly as regex backtracking does. -/
def lazyHeading (r2 : Str) : Option (Str × Str × Str) :=
  (occSplits '<' (str "/div>") r2).findSome? (fun t =>
    (tryBody t.2.2).map (fun pr => (t.1, pr.1, pr.2)))

/-- One attempt of the whole block regex
`<div[^>]*class=["']noteHeading["'][^>]*>([\s\S]*?)<\/div>\s*<div[^>]*class=["']noteText["'][^>]*>([\s\S]*?)<\/div>`
anchored at the start of `s`; returns `(heading, body, restAfterMatch)`. -/
def matchBlockAt (s : Str) : Option (Str × Str × Str) :=
  if prefixCI (str "<div") s then
    let r := s.drop 4
    if hasClassCI (str "noteHeading") (r.takeWhile (fun c => !(c == '>'))) then
      match r.dropWhile (fun c => !(c == '>')) with
      | c :: r2 => if c == '>' then lazyHeading r2 else none
      | [] => none
    else none
  else none

/-- The `while ((match = headingBlock.exec(html)) !== null)` loop of a
global regex: repeated leftmost match, resuming after each match. -/
def scanAux : Nat → Str → List (Str × Str)
  | 0, _ => []
  | _ + 1, [] => []
  | fuel + 1, c :: cs =>
    match matchBlockAt (c :: cs) with
    | some t => (t.1, t.2.1) :: scanAux fuel t.2.2
    | none => scanAux fuel cs

def scanBlocks (html : Str) : List (Str × Str) := scanAux (html.length + 1) html

/-- Canonical heading-block open tag, used to state block-scanner facts. -/
def noteHeadingOpen : Str := str "<div class=\"noteHeading\">"

/-- Canonical body-block open tag. -/
def noteTextOpen : Str := str "<div class=\"noteText\">"

/-- The closing tag both block patterns stop at. -/
def divClose : Str := str "</div>"

structure KindleHighlight where
  text : Str
  note : Option Str
  color : Option Str
  page : Option Str
  location : Option Str
deriving DecidableEq

structure KindleNotebook where
  title : Str
  author : Option Str
  highlights : List KindleHighlight
deriving DecidableEq

/-- Index (in the original list) of the last highlight whose `location`
equals `some l`: `[...highlights].reverse().find(item => item.location === location)`. -/
def lastLocIdx : List KindleHighlight → Str → Option Nat
  | [], _ => none
  | h :: t, l =>
    match lastLocIdx t l with
    | some i => some (i + 1)
    | none => if h.location = some l then some 0 else none

/-- `location && [...highlights].reverse().find(...)`: the reverse search
runs only when `location` is truthy. -/
def revLocFind (hs : List KindleHighlight) : Option Str → Option Nat
  | none => none
  | some l => if l.isEmpty then none else lastLocIdx hs l

/-- `(location && reversed.find(...)) || highlights[highlights.length - 1]`. -/
def findTargetIdx (hs : List KindleHighlight) (loc : Option Str) : Option Nat :=
  match revLocFind hs loc with
  | some i => some i
  | none => if hs.isEmpty then none else some (hs.length - 1)

/-- The body of the parse loop for one `(headingRaw, bodyRaw)` pair. -/
def processPair (hs : List KindleHighlight) (pr : Str × Str) : List KindleHighlight :=
  let heading := cleanText pr.1
  let body := cleanText pr.2
  let location := extractLocation heading
  let page := extractPage heading
  let color := extractColor heading
  if startsNoteWord heading then
    match findTargetIdx hs location with
    | some i =>
      match hs[i]? with
      | some t =>
        hs.set i { t with
          note := some body,
          page := if !(jsTruthy t.page) && jsTruthy page then page else t.page }
      | none => hs
    | none =>
      hs ++ [{ text := body, note := none, color := color, page := page, location := location }]
  else
    hs ++ [{ text := body, note := none, color := color, page := page, location := location }]

/-- `parseKindleHtml`. -/
def parseKindleHtml (html : Str) : KindleNotebook :=
  let notebookTitle := extractTitle html
  let notebookAuthor := extractAuthor html
  let highlights := (scanBlocks html).foldl processPair []
  let highlights2 :=
    if highlights.isEmpty then
      let bodyText := cleanText html
      if bodyText.isEmpty then highlights
      else highlights ++ [{ text := bodyText, note := none, color := none, page := none, location := none }]
    else highlights
  { title := notebookTitle, author := notebookAuthor, highlights := highlights2 }

def natStr (n : Nat) : Str := (Nat.repr n).data

/-- `.filter(Boolean)` over an array of `string | null` values. -/
def truthyFilter (xs : List (Option Str)) : List Str :=
  xs.filterMap (fun o =>
    match o with
    | some s => if s.isEmpty then none else some s
    | none => none)

/-- `Array.prototype.join(sep)`. -/
def joinSep (sep : Str) : List Str → Str
  | [] => []
  | [x] => x
  | x :: y :: rest => x ++ sep ++ joinSep sep (y :: rest)

/-- `[item.color, item.page ? `Page ...` : null, item.location ? `Loc ...` : null].filter(Boolean).join(' · ')`. -/
def metaStr (item : KindleHighlight) : Str :=
  joinSep (str " · ")
    (truthyFilter
      [item.color,
       (match item.page with
        | some p => if p.isEmpty then none else some (str "Page " ++ p)
        | none => none),
       (match item.location with
        | some l => if l.isEmpty then none else some (str "Loc " ++ l)
        | none => none)])

/-- The numbered entry line pushed for one highlight. -/
def entryLine (i : Nat) (item : KindleHighlight) : Str :=
  let meta := metaStr item
  let label := if meta.isEmpty then ([] : Str) else str " (" ++ meta ++ str ")"
  natStr (i + 1) ++ str ". " ++ item.text ++
    (if label.isEmpty then ([] : Str) else str " — " ++ label)

/-- The one or two lines pushed for one highlight (entry line, then the
indented quoted note line when the note is truthy). -/
def itemLines (i : Nat) (item : KindleHighlight) : List Str :=
  entryLine i item ::
    (match item.note with
     | some n => if n.isEmpty then [] else [str "   > " ++ n]
     | none => [])

/-- The lines pushed before the highlight loop: title heading, optional
author attribution, blank line. -/
def headerLines (nb : KindleNotebook) : List Str :=
  (str "# " ++ (if nb.title.isEmpty then str "Kindle Notebook" else nb.title)) ::
    ((match nb.author with
      | some a => if a.isEmpty then [] else [str "_by " ++ a ++ str "_"]
      | none => []) ++ [[]])

/-- `kindleNotebookToMarkdown`. -/
def kindleNotebookToMarkdown (nb : KindleNotebook) : Str :=
  joinSep (str "\n")
    ((nb.highlights.enum).foldl
      (fun acc pr =>
        let acc1 := acc ++ [entryLine pr.1 pr.2]
        match pr.2.note with
        | some n => if n.isEmpty then acc1 else acc1 ++ [str "   > " ++ n]
        | none => acc1)
      (headerLines nb))

end Kindle

/-! ## Lemmas about the embedded definitions -/

set_option maxRecDepth 40000

namespace Kindle

theorem locTokenAfter_ne_nil {kw cs tok : Str} (h : locTokenAfter kw cs = some tok) :
    tok.isEmpty = false := by
  unfold locTokenAfter at h
  split at h
  · simp only at h
    split at h
    · exact absurd h (by simp)
    · split at h
      · exact absurd h (by simp)
      · rename_i hguard
        obtain rfl := Option.some.inj h
        simpa using hguard
  · exact absurd h (by simp)

theorem scanFirst_eq_some {α : Type} {f : Str → Option α} :
    ∀ {s : Str} {r : α}, scanFirst f s = some r → ∃ pre t, pre ++ t = s ∧ f t = some r := by
  intro s
  induction s with
  | nil => intro r h; exact ⟨[], [], rfl, h⟩
  | cons c cs ih =>
    intro r h
    unfold scanFirst at h
    cases hf : f (c :: cs) with
    | some r' =>
      rw [hf] at h
      exact ⟨[], c :: cs, rfl, by rw [hf]; exact h⟩
    | none =>
      rw [hf] at h
      obtain ⟨pre, t, hpt, hft⟩ := ih h
      exact ⟨c :: pre, t, by rw [List.cons_append, hpt], hft⟩

theorem extractLocation_isEmpty_false {h l : Str} (hh : extractLocation h = some l) :
    l.isEmpty = false := by
  obtain ⟨pre, t, _, ht⟩ := scanFirst_eq_some hh
  exact locTokenAfter_ne_nil ht

theorem extractPage_isEmpty_false {h p : Str} (hh : extractPage h = some p) :
    p.isEmpty = false := by
  obtain ⟨pre, t, _, ht⟩ := scanFirst_eq_some hh
  exact locTokenAfter_ne_nil ht

theorem lastLocIdx_eq_none_of {hs : List KindleHighlight} {l : Str}
    (h : ∀ k (hk : k < hs.length), hs[k].location ≠ some l) :
    lastLocIdx hs l = none := by
  induction hs with
  | nil => rfl
  | cons a t ih =>
    have ht : lastLocIdx t l = none := by
      refine ih (fun k hk => ?_)
      have := h (k + 1) (by simpa using Nat.succ_lt_succ hk)
      simpa using this
    have h0 := h 0 (by simp)
    unfold lastLocIdx
    rw [ht]
    simpa using h0

theorem lastLocIdx_eq_some_of :
    ∀ {hs : List KindleHighlight} {l : Str} {j : Nat} (hj : j < hs.length),
      hs[j].location = some l →
      (∀ k (hk : k < hs.length), j < k → hs[k].location ≠ some l) →
      lastLocIdx hs l = some j := by
  intro hs
  induction hs with
  | nil => intro l j hj; simp at hj
  | cons a t ih =>
    intro l j hj hm hlast
    cases j with
    | zero =>
      have ht : lastLocIdx t l = none := by
        refine lastLocIdx_eq_none_of (fun k hk => ?_)
        have := hlast (k + 1) (by simpa using Nat.succ_lt_succ hk) (Nat.succ_pos k)
        simpa using this
      unfold lastLocIdx
      rw [ht]
      simpa using hm
    | succ j' =>
      have hj' : j' < t.length := by simpa using hj
      have ht : lastLocIdx t l = some j' := by
        refine ih hj' (by simpa using hm) (fun k hk hgt => ?_)
        have := hlast (k + 1) (by simpa using Nat.succ_lt_succ hk) (Nat.succ_lt_succ hgt)
        simpa using this
      unfold lastLocIdx
      rw [ht]

theorem lastLocIdx_lt :
    ∀ {hs : List KindleHighlight} {l : Str} {i : Nat}, lastLocIdx hs l = some i → i < hs.length := by
  intro hs
  induction hs with
  | nil => intro l i h; simp [lastLocIdx] at h
  | cons a t ih =>
    intro l i h
    unfold lastLocIdx at h
    cases hr : lastLocIdx t l with
    | some i' =>
      rw [hr] at h
      obtain rfl : i' + 1 = i := Option.some.inj h
      have := ih hr
      simpa using Nat.succ_lt_succ this
    | none =>
      rw [hr] at h
      by_cases hc : a.location = some l
      · rw [if_pos hc] at h
        obtain rfl : 0 = i := Option.some.inj h
        simp
      · rw [if_neg hc] at h
        exact absurd h (by simp)

theorem revLocFind_lt {hs : List KindleHighlight} {loc : Option Str} {i : Nat}
    (h : revLocFind hs loc = some i) : i < hs.length := by
  cases loc with
  | none => simp [revLocFind] at h
  | some l =>
    simp only [revLocFind] at h
    by_cases hle : l.isEmpty = true
    · rw [if_pos hle] at h
      exact absurd h (by simp)
    · rw [if_neg hle] at h
      exact lastLocIdx_lt h

theorem findTargetIdx_some_of_ne_nil {hs : List KindleHighlight} (loc : Option Str)
    (hne : hs ≠ []) : ∃ j, findTargetIdx hs loc = some j ∧ j < hs.length := by
  have hlen : 0 < hs.length := List.length_pos.mpr hne
  unfold findTargetIdx
  cases hrv : revLocFind hs loc with
  | some i => exact ⟨i, rfl, revLocFind_lt hrv⟩
  | none =>
    refine ⟨hs.length - 1, ?_, by omega⟩
    have : hs.isEmpty = false := by
      cases hs with
      | nil => exact absurd rfl hne
      | cons a t => rfl
    rw [this]
    simp

end Kindle

namespace Kindle

theorem listIsEmpty_false_of_ne_nil {α : Type} {l : List α} (h : l ≠ []) : l.isEmpty = false := by
  cases l with
  | nil => exact absurd rfl h
  | cons a t => rfl

theorem findTargetIdx_of_no_match {hs : List KindleHighlight} {loc : Option Str}
    (hnm : ∀ l, loc = some l → lastLocIdx hs l = none) :
    findTargetIdx hs loc = if hs.isEmpty then none else some (hs.length - 1) := by
  have hrv : revLocFind hs loc = none := by
    cases loc with
    | none => rfl
    | some l =>
      simp only [revLocFind]
      by_cases hle : l.isEmpty = true
      · rw [if_pos hle]
      · rw [if_neg hle]
        exact hnm l rfl
  unfold findTargetIdx
  rw [hrv]

theorem processPair_note_target {hs : List KindleHighlight} {rawH rawB : Str} {j : Nat}
    (hnote : startsNoteWord (cleanText rawH) = true)
    (hft : findTargetIdx hs (extractLocation (cleanText rawH)) = some j)
    (hj : j < hs.length) :
    processPair hs (rawH, rawB) =
      hs.set j { hs[j] with
        note := some (cleanText rawB)
        page := if !(jsTruthy hs[j].page) && jsTruthy (extractPage (cleanText rawH))
                then extractPage (cleanText rawH) else hs[j].page } := by
  unfold processPair
  dsimp only
  simp [hnote, hft, List.getElem?_eq_getElem hj]

theorem processPair_note_push {hs : List KindleHighlight} {rawH rawB : Str}
    (hnote : startsNoteWord (cleanText rawH) = true)
    (hft : findTargetIdx hs (extractLocation (cleanText rawH)) = none) :
    processPair hs (rawH, rawB) =
      hs ++ [{ text := cleanText rawB, note := none, color := extractColor (cleanText rawH),
               page := extractPage (cleanText rawH), location := extractLocation (cleanText rawH) }] := by
  unfold processPair
  dsimp only
  simp [hnote, hft]

end Kindle

namespace Kindle

/-- C1: For every parse input, when a note block (a heading/body pair whose
normalized heading starts with the case-insensitive word "note") carries a
location and some existing highlight in the list has an equal location, the
note's body is attached as the note of the most-recently-added highlight
whose location equals the note's location — even when other highlights were
appended in between — and the note block adds no new list entry. -/
theorem note_attaches_by_location
    (hs : List KindleHighlight) (rawHeading rawBody l : Str) (j : Nat)
    (hj : j < hs.length)
    (hnote : startsNoteWord (cleanText rawHeading) = true)
    (hloc : extractLocation (cleanText rawHeading) = some l)
    (hmatch : hs[j].location = some l)
    (hlast : ∀ k (hk : k < hs.length), j < k → hs[k].location ≠ some l) :
    (processPair hs (rawHeading, rawBody)).length = hs.length ∧
      ∃ t, (processPair hs (rawHeading, rawBody))[j]? = some t ∧
        t.note = some (cleanText rawBody) ∧ t.text = hs[j].text := by
  have hle : l.isEmpty = false := extractLocation_isEmpty_false hloc
  have hlidx : lastLocIdx hs l = some j := lastLocIdx_eq_some_of hj hmatch hlast
  have hft : findTargetIdx hs (extractLocation (cleanText rawHeading)) = some j := by
    rw [hloc]
    unfold findTargetIdx
    have hrv : revLocFind hs (some l) = some j := by
      simp only [revLocFind, hle]
      simpa using hlidx
    rw [hrv]
  rw [processPair_note_target hnote hft hj]
  refine ⟨List.length_set .., ?_⟩
  exact ⟨_, List.getElem?_set_eq_of_lt _ hj, rfl, rfl⟩

/-- Witness for C1: two highlights with locations "10" and "20"; a note block
"Note - Location 10" attaches to the first (not most recent) highlight. -/
theorem note_attaches_by_location_witness :
    (processPair
        [{ text := str "A", note := none, color := none, page := none, location := some (str "10") },
         { text := str "B", note := none, color := none, page := none, location := some (str "20") }]
        (str "Note - Location 10", str "great")).length =
      ([{ text := str "A", note := none, color := none, page := none, location := some (str "10") },
        { text := str "B", note := none, color := none, page := none, location := some (str "20") }] : List KindleHighlight).length ∧
      ∃ t, (processPair
        [{ text := str "A", note := none, color := none, page := none, location := some (str "10") },
         { text := str "B", note := none, color := none, page := none, location := some (str "20") }]
        (str "Note - Location 10", str "great"))[0]? = some t ∧
        t.note = some (cleanText (str "great")) ∧
        t.text = ([{ text := str "A", note := none, color := none, page := none, location := some (str "10") },
                   { text := str "B", note := none, color := none, page := none, location := some (str "20") }] : List KindleHighlight)[0].text :=
  note_attaches_by_location _ _ _ (str "10") 0 (by decide) (by decide) (by decide) (by decide)
    (by decide)

/-- C2: For every parse input, a note block whose location is absent or equals
no existing highlight's location attaches its body as the note of the
most-recently-appended highlight when the list is non-empty; when the list is
empty, the note block instead appends a standalone highlight
`{text: body, note: absent, color, page, location}` rather than being discarded. -/
theorem note_fallback_last_or_standalone
    (hs : List KindleHighlight) (rawHeading rawBody : Str)
    (hnote : startsNoteWord (cleanText rawHeading) = true)
    (hnomatch : ∀ l, extractLocation (cleanText rawHeading) = some l →
      ∀ k (hk : k < hs.length), hs[k].location ≠ some l) :
    (hs = [] → processPair hs (rawHeading, rawBody) =
        [{ text := cleanText rawBody, note := none, color := extractColor (cleanText rawHeading),
           page := extractPage (cleanText rawHeading), location := extractLocation (cleanText rawHeading) }]) ∧
    (hs ≠ [] → (processPair hs (rawHeading, rawBody)).length = hs.length ∧
        ∃ t, (processPair hs (rawHeading, rawBody))[hs.length - 1]? = some t ∧
          t.note = some (cleanText rawBody)) := by
  have hnm : ∀ l, extractLocation (cleanText rawHeading) = some l → lastLocIdx hs l = none :=
    fun l hl => lastLocIdx_eq_none_of (hnomatch l hl)
  have hft := findTargetIdx_of_no_match hnm
  constructor
  · intro hemp
    subst hemp
    rw [processPair_note_push hnote (by simpa using hft)]
    rfl
  · intro hne
    have hlen : 0 < hs.length := List.length_pos.mpr hne
    rw [listIsEmpty_false_of_ne_nil hne] at hft
    simp only [Bool.false_eq_true, if_false] at hft
    rw [processPair_note_target hnote hft (by omega)]
    refine ⟨List.length_set .., ?_⟩
    exact ⟨_, List.getElem?_set_eq_of_lt _ (by omega), rfl⟩

/-- Witness for C2: the empty-list half at a concrete note block with no
matching location, and the non-empty half attaching to the last highlight. -/
theorem note_fallback_last_or_standalone_witness :
    ([] = ([] : List KindleHighlight) → processPair [] (str "Note - Location 50", str "N") =
        [{ text := cleanText (str "N"), note := none,
           color := extractColor (cleanText (str "Note - Location 50")),
           page := extractPage (cleanText (str "Note - Location 50")),
           location := extractLocation (cleanText (str "Note - Location 50")) }]) ∧
    (([] : List KindleHighlight) ≠ [] →
        (processPair [] (str "Note - Location 50", str "N")).length = ([] : List KindleHighlight).length ∧
        ∃ t, (processPair [] (str "Note - Location 50", str "N"))[([] : List KindleHighlight).length - 1]? = some t ∧
          t.note = some (cleanText (str "N"))) :=
  note_fallback_last_or_standalone [] (str "Note - Location 50") (str "N") (by decide) (by decide)

/-- C8: When a note block attaches to an existing target highlight, only the
target's note field is set and its page field is backfilled only when
previously absent and the note block carries a page; the target's text, color
and location, the page when already present, and every field of every other
highlight in the list remain unchanged.  (The hypothesis that no stored page
is the empty string holds for every parse-produced list, since extracted page
tokens are nonempty.) -/
theorem note_merge_frame
    (hs : List KindleHighlight) (rawHeading rawBody : Str)
    (hnote : startsNoteWord (cleanText rawHeading) = true)
    (hne : hs ≠ [])
    (hpage : ∀ k (hk : k < hs.length), hs[k].page ≠ some []) :
    ∃ j, ∃ hj : j < hs.length,
      (processPair hs (rawHeading, rawBody)).length = hs.length ∧
      (∀ k, k ≠ j → (processPair hs (rawHeading, rawBody))[k]? = hs[k]?) ∧
      ∃ t, (processPair hs (rawHeading, rawBody))[j]? = some t ∧
        t.text = hs[j].text ∧ t.color = hs[j].color ∧ t.location = hs[j].location ∧
        t.note = some (cleanText rawBody) ∧
        (hs[j].page ≠ none → t.page = hs[j].page) ∧
        (hs[j].page = none → t.page = extractPage (cleanText rawHeading)) := by
  obtain ⟨j, hft, hj⟩ := findTargetIdx_some_of_ne_nil (extractLocation (cleanText rawHeading)) hne
  refine ⟨j, hj, ?_⟩
  rw [processPair_note_target hnote hft hj]
  refine ⟨List.length_set .., fun k hk => List.getElem?_set_ne (fun h => hk h.symm), ?_⟩
  refine ⟨_, List.getElem?_set_eq_of_lt _ hj, rfl, rfl, rfl, rfl, ?_, ?_⟩
  · intro hsome
    obtain ⟨p, hp⟩ := Option.ne_none_iff_exists'.mp hsome
    have hpne : p ≠ [] := fun h => (hpage j hj) (by rw [hp, h])
    have hpe : p.isEmpty = false := listIsEmpty_false_of_ne_nil hpne
    simp [hp, jsTruthy, hpe]
  · intro hnone
    cases hpg : extractPage (cleanText rawHeading) with
    | none => simp [hnone, hpg, jsTruthy]
    | some pg =>
      have := extractPage_isEmpty_false hpg
      simp [hnone, hpg, jsTruthy, this]

/-- Witness for C8: a two-highlight list where the note block carries
"Page 7"; the target's page is backfilled, everything else unchanged. -/
theorem note_merge_frame_witness :
    ∃ j, ∃ hj : j <
        ([{ text := str "A", note := none, color := some (str "Blue"), page := none, location := some (str "10") },
          { text := str "B", note := none, color := none, page := some (str "3"), location := some (str "20") }] : List KindleHighlight).length,
      (processPair
          [{ text := str "A", note := none, color := some (str "Blue"), page := none, location := some (str "10") },
           { text := str "B", note := none, color := none, page := some (str "3"), location := some (str "20") }]
          (str "Note - Page 7 - Location 10", str "N")).length =
        ([{ text := str "A", note := none, color := some (str "Blue"), page := none, location := some (str "10") },
          { text := str "B", note := none, color := none, page := some (str "3"), location := some (str "20") }] : List KindleHighlight).length ∧
      (∀ k, k ≠ j →
        (processPair
          [{ text := str "A", note := none, color := some (str "Blue"), page := none, location := some (str "10") },
           { text := str "B", note := none, color := none, page := some (str "3"), location := some (str "20") }]
          (str "Note - Page 7 - Location 10", str "N"))[k]? =
        ([{ text := str "A", note := none, color := some (str "Blue"), page := none, location := some (str "10") },
          { text := str "B", note := none, color := none, page := some (str "3"), location := some (str "20") }] : List KindleHighlight)[k]?) ∧
      ∃ t, (processPair
          [{ text := str "A", note := none, color := some (str "Blue"), page := none, location := some (str "10") },
           { text := str "B", note := none, color := none, page := some (str "3"), location := some (str "20") }]
          (str "Note - Page 7 - Location 10", str "N"))[j]? = some t ∧
        t.text = ([{ text := str "A", note := none, color := some (str "Blue"), page := none, location := some (str "10") },
                   { text := str "B", note := none, color := none, page := some (str "3"), location := some (str "20") }] : List KindleHighlight)[j].text ∧
        t.color = ([{ text := str "A", note := none, color := some (str "Blue"), page := none, location := some (str "10") },
                    { text := str "B", note := none, color := none, page := some (str "3"), location := some (str "20") }] : List KindleHighlight)[j].color ∧
        t.location = ([{ text := str "A", note := none, color := some (str "Blue"), page := none, location := some (str "10") },
                       { text := str "B", note := none, color := none, page := some (str "3"), location := some (str "20") }] : List KindleHighlight)[j].location ∧
        t.note = some (cleanText (str "N")) ∧
        (([{ text := str "A", note := none, color := some (str "Blue"), page := none, location := some (str "10") },
           { text := str "B", note := none, color := none, page := some (str "3"), location := some (str "20") }] : List KindleHighlight)[j].page ≠ none → t.page =
          ([{ text := str "A", note := none, color := some (str "Blue"), page := none, location := some (str "10") },
            { text := str "B", note := none, color := none, page := some (str "3"), location := some (str "20") }] : List KindleHighlight)[j].page) ∧
        (([{ text := str "A", note := none, color := some (str "Blue"), page := none, location := some (str "10") },
           { text := str "B", note := none, color := none, page := some (str "3"), location := some (str "20") }] : List KindleHighlight)[j].page = none →
          t.page = extractPage (cleanText (str "Note - Page 7 - Location 10"))) :=
  note_merge_frame _ _ _ (by decide) (by decide) (by decide)

theorem note_no_loc_sets_last (hs : List KindleHighlight) (rawH rawB : Str)
    (hn : startsNoteWord (cleanText rawH) = true)
    (hl : extractLocation (cleanText rawH) = none)
    (hne : hs ≠ []) :
    ∃ u, processPair hs (rawH, rawB) = hs.set (hs.length - 1) u ∧
      u.note = some (cleanText rawB) := by
  have hlen : 0 < hs.length := List.length_pos.mpr hne
  have hft : findTargetIdx hs (extractLocation (cleanText rawH)) = some (hs.length - 1) := by
    rw [hl]
    unfold findTargetIdx
    rw [show revLocFind hs none = none from rfl, listIsEmpty_false_of_ne_nil hne]
    simp
  exact ⟨_, processPair_note_target hn hft (by omega), rfl⟩

/-- C10 (implicit): When two or more note blocks resolve to the same target
highlight, each later note overwrites the target's note field, so after
parsing the target's note equals the body of the last note block that
attached to it; the earlier note bodies are lost.  Shown for any two
location-free note blocks folded over any non-empty highlight list: both
resolve to the last element, and its final note is the second body. -/
theorem later_note_overwrites
    (hs : List KindleHighlight) (rawH1 rawB1 rawH2 rawB2 : Str)
    (hn1 : startsNoteWord (cleanText rawH1) = true)
    (hn2 : startsNoteWord (cleanText rawH2) = true)
    (hl1 : extractLocation (cleanText rawH1) = none)
    (hl2 : extractLocation (cleanText rawH2) = none)
    (hne : hs ≠ []) :
    ∃ t, (List.foldl processPair hs [(rawH1, rawB1), (rawH2, rawB2)])[hs.length - 1]? = some t ∧
      t.note = some (cleanText rawB2) := by
  have hlen : 0 < hs.length := List.length_pos.mpr hne
  obtain ⟨u1, hs1eq, hu1⟩ := note_no_loc_sets_last hs rawH1 rawB1 hn1 hl1 hne
  have hstep : List.foldl processPair hs [(rawH1, rawB1), (rawH2, rawB2)] =
      processPair (processPair hs (rawH1, rawB1)) (rawH2, rawB2) := by
    simp [List.foldl]
  have hlen1 : (processPair hs (rawH1, rawB1)).length = hs.length := by
    rw [hs1eq]
    exact List.length_set ..
  have hne1 : processPair hs (rawH1, rawB1) ≠ [] := by
    intro h
    rw [h] at hlen1
    simp at hlen1
    omega
  obtain ⟨u2, hs2eq, hu2⟩ := note_no_loc_sets_last _ rawH2 rawB2 hn2 hl2 hne1
  rw [hstep, hs2eq, hlen1]
  refine ⟨u2, ?_, hu2⟩
  exact List.getElem?_set_eq_of_lt _ (by rw [hlen1]; omega)

/-- Witness for C10: one highlight, two successive plain "Note" blocks; the
final note is the second body "N2". -/
theorem later_note_overwrites_witness :
    ∃ t, (List.foldl processPair
        [{ text := str "A", note := none, color := none, page := none, location := none }]
        [(str "Note", str "N1"), (str "Note 2", str "N2")])[
          ([{ text := str "A", note := none, color := none, page := none, location := none }] : List KindleHighlight).length - 1]? = some t ∧
      t.note = some (cleanText (str "N2")) :=
  later_note_overwrites _ _ _ _ _ (by decide) (by decide) (by decide) (by decide) (by decide)

end Kindle

namespace Kindle

/-- C3: For every input string in which the block scan yields zero
heading/body pairs, parse raises no failure (it is a total function) and
returns exactly one highlight whose text equals the normalized full document
and whose note, color, page and location are all absent if the normalized
document is non-empty, and an empty highlight list if it is empty. -/
theorem fallback_whole_document (html : Str) (hscan : scanBlocks html = []) :
    (parseKindleHtml html).highlights =
      if (cleanText html).isEmpty then []
      else [{ text := cleanText html, note := none, color := none,
              page := none, location := none }] := by
  unfold parseKindleHtml
  dsimp only
  rw [hscan]
  simp only [List.foldl_nil, List.isEmpty_nil, if_true]
  by_cases h : (cleanText html).isEmpty = true
  · rw [if_pos h, if_pos h]
  · rw [if_neg h, if_neg h]
    rfl

/-- Witness for C3: "hello" has no heading/body blocks; the parse result is
the single whole-document fallback highlight. -/
theorem fallback_whole_document_witness :
    (parseKindleHtml (str "hello")).highlights =
      if (cleanText (str "hello")).isEmpty then []
      else [{ text := cleanText (str "hello"), note := none, color := none,
              page := none, location := none }] :=
  fallback_whole_document (str "hello") (by decide)

/-- Counterexample to C4: on input `"<title></title>"` the generic title-tag
pattern matches with an empty capture, and the parsed notebook's title is the
empty string — so the title is not always non-empty. -/
theorem title_can_be_empty_cx :
    (parseKindleHtml (str "<title></title>")).title = [] := by decide

/-- C4 (amended): when no title pattern matches, the title is the fixed
default "Kindle Notebook"; when a pattern matches, the stored title is the
normalized captured content, which may be the empty string (see the
counterexample). -/
theorem title_default_or_captured (html : Str) :
    (scanFirst titleClassAt html = none → scanFirst titleTagAt html = none →
      (parseKindleHtml html).title = str "Kindle Notebook") ∧
    (∀ cap, scanFirst titleClassAt html = some cap →
      (parseKindleHtml html).title = cleanText cap) ∧
    (∀ cap, scanFirst titleClassAt html = none → scanFirst titleTagAt html = some cap →
      (parseKindleHtml html).title = cleanText cap) := by
  refine ⟨fun h1 h2 => ?_, fun cap h1 => ?_, fun cap h1 h2 => ?_⟩
  · unfold parseKindleHtml extractTitle
    dsimp only
    rw [h1, h2]
    decide
  · unfold parseKindleHtml extractTitle
    dsimp only
    rw [h1]
  · unfold parseKindleHtml extractTitle
    dsimp only
    rw [h1, h2]

/-- Witness for C4 (amended): on "x" no title pattern matches and the parsed
title is the default. -/
theorem title_default_or_captured_witness :
    (parseKindleHtml (str "x")).title = str "Kindle Notebook" :=
  (title_default_or_captured (str "x")).1 (by decide) (by decide)

/-- Counterexample to C5: the ampersand entity is NOT decoded after every
other entity — `&quot;` and `&#39;` are decoded after `&amp;` — so the
ampersand-encoded entity `"&amp;quot;"` IS double-decoded, to a literal
quote character rather than to the text `"&quot;"`. -/
theorem decode_amp_not_last_cx :
    decodeEntities (str "&amp;quot;") = str "\"" ∧
    decodeEntities (str "&amp;quot;") ≠ str "&quot;" := by decide

/-- C5 (amended): text normalization decodes exactly the six named entities
in the fixed source order nbsp, lt, gt, amp, quot, #39.  The ampersand
entity is decoded after the lt/gt entities — so `"&amp;lt;"` decodes to the
literal text `"&lt;"` and `"&amp;gt;"` to `"&gt;"` — but before the quote
and apostrophe entities, which are therefore double-decoded. -/
theorem decode_order_amended :
    decodeEntities (str "&amp;lt;") = str "&lt;" ∧
    decodeEntities (str "&amp;gt;") = str "&gt;" ∧
    decodeEntities (str "&amp;quot;") = str "\"" ∧
    decodeEntities (str "&amp;#39;") = str "'" := by decide

/-- Counterexample to C6: a lowercase source color is captured in its source
casing, not the canonical reference form: `"(yellow)"` yields `"yellow"`,
not `"Yellow"`. -/
theorem color_source_casing_cx :
    extractColor (str "(yellow)") = some (str "yellow") ∧
    extractColor (str "(yellow)") ≠ some (str "Yellow") := by decide

end Kindle

namespace Kindle

theorem prefixCI_length_le : ∀ {p s : Str}, prefixCI p s = true → p.length ≤ s.length := by
  intro p
  induction p with
  | nil => intro s _; simp
  | cons a ps ih =>
    intro s h
    cases s with
    | nil => simp [prefixCI] at h
    | cons c cs =>
      simp only [prefixCI, Bool.and_eq_true] at h
      simpa using Nat.succ_le_succ (ih h.2)

theorem prefixCI_take : ∀ {w r : Str}, prefixCI w r = true → prefixCI w (r.take w.length) = true := by
  intro w
  induction w with
  | nil => intro r _; rfl
  | cons a ws ih =>
    intro r h
    cases r with
    | nil => simp [prefixCI] at h
    | cons c cs =>
      simp only [prefixCI, Bool.and_eq_true] at h
      simp only [List.length_cons, List.take_succ_cons, prefixCI, Bool.and_eq_true]
      exact ⟨h.1, ih h.2⟩

theorem colorCapAt1_spec {w r cap : Str} (h : colorCapAt1 w r = some cap) :
    cap = r.take w.length ∧ prefixCI w r = true := by
  unfold colorCapAt1 at h
  by_cases hp : prefixCI w r = true
  · rw [if_pos hp] at h
    split at h
    · exact ⟨(Option.some.inj h).symm, hp⟩
    · exact absurd h (by simp)
  · rw [if_neg hp] at h
    exact absurd h (by simp)

theorem colorTryList_spec :
    ∀ {ws : List Str} {r cap : Str}, colorTryList ws r = some cap →
      ∃ w, w ∈ ws ∧ colorCapAt1 w r = some cap := by
  intro ws
  induction ws with
  | nil => intro r cap h; simp [colorTryList] at h
  | cons w rest ih =>
    intro r cap h
    unfold colorTryList at h
    cases hc : colorCapAt1 w r with
    | some cap' =>
      rw [hc] at h
      exact ⟨w, by simp, by rw [hc]; exact h⟩
    | none =>
      rw [hc] at h
      obtain ⟨w', hw', hcap⟩ := ih h
      exact ⟨w', by simp [hw'], hcap⟩

/-- C6 (amended): whenever color extraction succeeds, the returned value is a
substring of the heading that is case-insensitively equal (same length,
case-insensitive character-wise match) to one of the five fixed color names —
i.e. it preserves the matched source casing, not the reference-form
capitalization (see the counterexample: "(yellow)" yields "yellow"). -/
theorem color_preserves_source_casing (heading r : Str)
    (h : extractColor heading = some r) :
    (∃ w, w ∈ colorNames ∧ r.length = w.length ∧ prefixCI w r = true) ∧
    ∃ pre post, pre ++ r ++ post = heading := by
  obtain ⟨pre0, t, hsplit, hat⟩ := scanFirst_eq_some h
  cases t with
  | nil => simp [colorAt] at hat
  | cons c rest =>
    simp only [colorAt] at hat
    by_cases hc : (c == '(') = true
    · rw [if_pos hc] at hat
      obtain ⟨w, hw, hcap⟩ := colorTryList_spec hat
      obtain ⟨hcapeq, hpfx⟩ := colorCapAt1_spec hcap
      have hlen : w.length ≤ rest.length := prefixCI_length_le hpfx
      refine ⟨⟨w, hw, ?_, ?_⟩, ?_⟩
      · rw [hcapeq]
        simp [List.length_take]
        omega
      · rw [hcapeq]
        exact prefixCI_take hpfx
      · refine ⟨pre0 ++ [c], rest.drop w.length, ?_⟩
        rw [hcapeq]
        have : (rest.take w.length ++ rest.drop w.length) = rest := List.take_append_drop ..
        rw [List.append_assoc, List.append_assoc, this.symm]
        simpa using hsplit
    · rw [if_neg hc] at hat
      exact absurd hat (by simp)

/-- Witness for C6 (amended): "(Blue)" yields the captured source substring
"Blue", case-insensitively equal to a fixed color name and a substring of
the heading. -/
theorem color_preserves_source_casing_witness :
    (∃ w, w ∈ colorNames ∧ (str "Blue").length = w.length ∧ prefixCI w (str "Blue") = true) ∧
    ∃ pre post, pre ++ str "Blue" ++ post = str "(Blue)" :=
  color_preserves_source_casing (str "(Blue)") (str "Blue") (by decide)

end Kindle

namespace Kindle

theorem isEmpty_append_left_false {x y : Str} (hx : x.isEmpty = false) :
    (x ++ y).isEmpty = false := by
  cases x with
  | nil => simp at hx
  | cons a l => rfl

theorem append_ne_nil_left {x : Str} (hx : x ≠ []) : ∀ y : Str, x ++ y ≠ [] := by
  intro y
  cases x with
  | nil => exact absurd rfl hx
  | cons a t => simp

theorem foldl_push_itemLines (l : List (Nat × KindleHighlight)) (acc : List Str) :
    l.foldl
      (fun acc pr =>
        let acc1 := acc ++ [entryLine pr.1 pr.2]
        match pr.2.note with
        | some n => if n.isEmpty then acc1 else acc1 ++ [str "   > " ++ n]
        | none => acc1)
      acc
    = acc ++ l.flatMap (fun pr => itemLines pr.1 pr.2) := by
  induction l generalizing acc with
  | nil => simp
  | cons pr rest ih =>
    rw [List.foldl_cons, ih, List.flatMap_cons]
    have hstep :
        (let acc1 := acc ++ [entryLine pr.1 pr.2]
         match pr.2.note with
         | some n => if n.isEmpty then acc1 else acc1 ++ [str "   > " ++ n]
         | none => acc1)
        = acc ++ itemLines pr.1 pr.2 := by
      unfold itemLines
      cases hn : pr.2.note with
      | none => simp
      | some n =>
        by_cases hne : n = []
        · subst hne
          simp
        · simp [hne]
    rw [hstep, List.append_assoc]

/-- C9: For every Notebook, rendering emits each highlight as a 1-based
numbered entry in list order containing its text; when at least one of
color/page/location is present the entry carries a single parenthetical
segment joining exactly the present fields with a middle-dot separator in
the fixed order color, "Page {page}", "Loc {location}" with no stray
separators; when all three are absent no parenthetical appears; and when a
note is present an indented quoted line with the note text immediately
follows the entry. -/
theorem rendering_shape (nb : KindleNotebook) (i : Nat) (item : KindleHighlight)
    (c p l n : Str) :
    (kindleNotebookToMarkdown nb =
      joinSep (str "\n")
        (headerLines nb ++ (nb.highlights.enum).flatMap (fun pr => itemLines pr.1 pr.2))) ∧
    (item.color = none → item.page = none → item.location = none →
      entryLine i item = natStr (i + 1) ++ str ". " ++ item.text) ∧
    (item.color = some c → c ≠ [] → item.page = some p → p ≠ [] →
      item.location = some l → l ≠ [] →
      entryLine i item = natStr (i + 1) ++ str ". " ++ item.text ++ str " — " ++ str " (" ++
        c ++ str " · " ++ str "Page " ++ p ++ str " · " ++ str "Loc " ++ l ++ str ")") ∧
    (item.color = some c → c ≠ [] → item.page = none → item.location = some l → l ≠ [] →
      entryLine i item = natStr (i + 1) ++ str ". " ++ item.text ++ str " — " ++ str " (" ++
        c ++ str " · " ++ str "Loc " ++ l ++ str ")") ∧
    (item.note = some n → n ≠ [] →
      itemLines i item = [entryLine i item, str "   > " ++ n]) ∧
    (item.note = none → itemLines i item = [entryLine i item]) := by
  refine ⟨?_, ?_, ?_, ?_, ?_, ?_⟩
  · unfold kindleNotebookToMarkdown
    rw [foldl_push_itemLines]
  · intro h1 h2 h3
    simp [entryLine, metaStr, truthyFilter, joinSep, h1, h2, h3]
  · intro h1 h1e h2 h2e h3 h3e
    have hcAll := append_ne_nil_left h1e
    have hPage := append_ne_nil_left (x := str "Page ") (by decide)
    have hLoc := append_ne_nil_left (x := str "Loc ") (by decide)
    have hParen := append_ne_nil_left (x := str " (") (by decide)
    simp [entryLine, metaStr, truthyFilter, joinSep, h1, h2, h3, h1e, h2e, h3e,
      hcAll, hPage, hLoc, hParen, List.append_assoc]
  · intro h1 h1e h2 h3 h3e
    have hcAll := append_ne_nil_left h1e
    have hLoc := append_ne_nil_left (x := str "Loc ") (by decide)
    have hParen := append_ne_nil_left (x := str " (") (by decide)
    simp [entryLine, metaStr, truthyFilter, joinSep, h1, h2, h3, h1e, h3e,
      hcAll, hLoc, hParen, List.append_assoc]
  · intro hn hne
    unfold itemLines
    rw [hn]
    simp [hne]
  · intro hn
    unfold itemLines
    rw [hn]

/-- Witness for C9: the "Atlas" scenario — the sole highlight renders as a
numbered entry with the parenthetical "Yellow · Page 12 · Loc 340" and a
following quoted note line "good point". -/
theorem rendering_shape_witness :
    entryLine 0
        (KindleHighlight.mk (str "Sample") (some (str "good point")) (some (str "Yellow"))
          (some (str "12")) (some (str "340"))) =
      natStr 1 ++ str ". " ++ str "Sample" ++ str " — " ++ str " (" ++ str "Yellow" ++
        str " · " ++ str "Page " ++ str "12" ++ str " · " ++ str "Loc " ++ str "340" ++ str ")" ∧
    itemLines 0
        (KindleHighlight.mk (str "Sample") (some (str "good point")) (some (str "Yellow"))
          (some (str "12")) (some (str "340"))) =
      [entryLine 0
        (KindleHighlight.mk (str "Sample") (some (str "good point")) (some (str "Yellow"))
          (some (str "12")) (some (str "340"))),
       str "   > " ++ str "good point"] :=
  ⟨(rendering_shape
      (KindleNotebook.mk (str "Atlas") (some (str "J. Doe"))
        [KindleHighlight.mk (str "Sample") (some (str "good point")) (some (str "Yellow"))
          (some (str "12")) (some (str "340"))])
      0
      (KindleHighlight.mk (str "Sample") (some (str "good point")) (some (str "Yellow"))
        (some (str "12")) (some (str "340")))
      (str "Yellow") (str "12") (str "340") (str "good point")).2.2.1
      rfl (by decide) rfl (by decide) rfl (by decide),
   (rendering_shape
      (KindleNotebook.mk (str "Atlas") (some (str "J. Doe"))
        [KindleHighlight.mk (str "Sample") (some (str "good point")) (some (str "Yellow"))
          (some (str "12")) (some (str "340"))])
      0
      (KindleHighlight.mk (str "Sample") (some (str "good point")) (some (str "Yellow"))
        (some (str "12")) (some (str "340")))
      (str "Yellow") (str "12") (str "340") (str "good point")).2.2.2.2.1
      rfl (by decide)⟩

end Kindle

namespace Kindle

theorem prefixCI_append_of {p x : Str} (h : prefixCI p x = true) (y : Str) :
    prefixCI p (x ++ y) = true := by
  induction p generalizing x with
  | nil => rfl
  | cons a ps ih =>
    cases x with
    | nil => simp [prefixCI] at h
    | cons c cs =>
      simp only [prefixCI, Bool.and_eq_true] at h
      simp only [List.cons_append, prefixCI, Bool.and_eq_true]
      exact ⟨h.1, ih h.2⟩

theorem splitFirstOccCI_append_free {p0 : Char} {prest : Str} {x : Str} {y : Str}
    (hx : ∀ c ∈ x, charCI p0 c = false) :
    splitFirstOccCI p0 prest (x ++ y) =
      (splitFirstOccCI p0 prest y).map (fun pr => (x ++ pr.1, pr.2)) := by
  induction x with
  | nil =>
    cases hy : splitFirstOccCI p0 prest y <;> simp [hy]
  | cons c cs ih =>
    have hc : charCI p0 c = false := hx c (by simp)
    have hrest : ∀ a ∈ cs, charCI p0 a = false := fun a ha => hx a (by simp [ha])
    have hpfx : prefixCI (p0 :: prest) (c :: (cs ++ y)) = false := by
      simp [prefixCI, hc]
    simp only [List.cons_append, splitFirstOccCI, List.append_eq, hpfx, Bool.false_eq_true,
      if_false]
    rw [ih hrest]
    cases hy : splitFirstOccCI p0 prest y <;> simp [hy]

theorem occSplits_append_free {p0 : Char} {prest : Str} {x : Str} {y : Str}
    (hx : ∀ c ∈ x, charCI p0 c = false) :
    occSplits p0 prest (x ++ y) =
      (occSplits p0 prest y).map (fun t => (x ++ t.1, t.2.1, t.2.2)) := by
  induction x with
  | nil => simp
  | cons c cs ih =>
    have hc : charCI p0 c = false := hx c (by simp)
    have hrest : ∀ a ∈ cs, charCI p0 a = false := fun a ha => hx a (by simp [ha])
    have hpfx : prefixCI (p0 :: prest) (c :: (cs ++ y)) = false := by
      simp [prefixCI, hc]
    simp only [List.cons_append, occSplits, List.append_eq, hpfx, Bool.false_eq_true,
      if_false]
    rw [ih hrest]
    simp [List.map_map, Function.comp]

theorem scanAux_nil (fuel : Nat) : scanAux fuel [] = [] := by
  cases fuel <;> rfl

theorem matchBlockAt_nil : matchBlockAt [] = none := by decide

theorem scanAux_of_match {fuel : Nat} {s h b rest : Str} (hf : 0 < fuel)
    (hm : matchBlockAt s = some (h, b, rest)) :
    scanAux fuel s = (h, b) :: scanAux (fuel - 1) rest := by
  cases fuel with
  | zero => omega
  | succ f =>
    cases s with
    | nil =>
      rw [matchBlockAt_nil] at hm
      exact absurd hm (by simp)
    | cons c cs =>
      simp [scanAux, hm]

end Kindle

namespace Kindle

theorem tryBody_block (b g r : Str)
    (hb : ∀ c ∈ b, charCI '<' c = false)
    (hg : ∀ c ∈ g, isJsSpace c = true) :
    tryBody (g ++ (noteTextOpen ++ (b ++ (divClose ++ r)))) = some (b, r) := by
  have hdw : (g ++ (noteTextOpen ++ (b ++ (divClose ++ r)))).dropWhile isJsSpace =
      noteTextOpen ++ (b ++ (divClose ++ r)) := by
    rw [List.dropWhile_append_of_pos hg, List.dropWhile_append, if_neg (by decide),
      show noteTextOpen.dropWhile isJsSpace = noteTextOpen from by decide]
  unfold tryBody
  dsimp only
  rw [hdw]
  rw [if_pos (prefixCI_append_of (p := str "<div") (x := noteTextOpen) (by decide) _)]
  rw [show noteTextOpen = str "<div" ++ str " class=\"noteText\">" from by decide,
    List.append_assoc, List.drop_left' (by decide : (str "<div").length = 4)]
  have htw : (str " class=\"noteText\">" ++ (b ++ (divClose ++ r))).takeWhile
      (fun c => !(c == '>')) = (str " class=\"noteText\">").takeWhile (fun c => !(c == '>')) := by
    rw [List.takeWhile_append, if_neg (by decide)]
  have hdw2 : (str " class=\"noteText\">" ++ (b ++ (divClose ++ r))).dropWhile
      (fun c => !(c == '>')) = '>' :: (b ++ (divClose ++ r)) := by
    rw [List.dropWhile_append, if_neg (by decide),
      show (str " class=\"noteText\">").dropWhile (fun c => !(c == '>')) = str ">" from by decide]
    rfl
  rw [htw, if_pos (by decide), hdw2]
  dsimp only
  rw [if_pos (by decide : ('>' == '>') = true)]
  rw [splitFirstOccCI_append_free hb]
  rw [show divClose ++ r = '<' :: (str "/div>" ++ r) from rfl]
  simp only [splitFirstOccCI]
  rw [if_pos (show prefixCI ('<' :: str "/div>") ('<' :: (str "/div>" ++ r)) = true from
    prefixCI_append_of (by decide) r)]
  rw [show List.drop (str "/div>").length (str "/div>" ++ r) = r from List.drop_left ..]
  simp

end Kindle

namespace Kindle

theorem matchBlockAt_block (h b g r : Str)
    (hh : ∀ c ∈ h, charCI '<' c = false) (hb : ∀ c ∈ b, charCI '<' c = false)
    (hg : ∀ c ∈ g, isJsSpace c = true) :
    matchBlockAt
        (noteHeadingOpen ++ (h ++ (divClose ++ (g ++ (noteTextOpen ++ (b ++ (divClose ++ r))))))) =
      some (h, b, r) := by
  unfold matchBlockAt
  dsimp only
  rw [if_pos (prefixCI_append_of (p := str "<div") (x := noteHeadingOpen) (by decide) _)]
  rw [show noteHeadingOpen = str "<div" ++ str " class=\"noteHeading\">" from by decide,
    List.append_assoc, List.drop_left' (by decide : (str "<div").length = 4)]
  have htw : (str " class=\"noteHeading\">" ++
        (h ++ (divClose ++ (g ++ (noteTextOpen ++ (b ++ (divClose ++ r))))))).takeWhile
      (fun c => !(c == '>')) = (str " class=\"noteHeading\">").takeWhile (fun c => !(c == '>')) := by
    rw [List.takeWhile_append, if_neg (by decide)]
  have hdw : (str " class=\"noteHeading\">" ++
        (h ++ (divClose ++ (g ++ (noteTextOpen ++ (b ++ (divClose ++ r))))))).dropWhile
      (fun c => !(c == '>')) =
      '>' :: (h ++ (divClose ++ (g ++ (noteTextOpen ++ (b ++ (divClose ++ r)))))) := by
    rw [List.dropWhile_append, if_neg (by decide),
      show (str " class=\"noteHeading\">").dropWhile (fun c => !(c == '>')) = str ">" from by decide]
    rfl
  rw [htw, if_pos (by decide), hdw]
  dsimp only
  rw [if_pos (by decide : ('>' == '>') = true)]
  unfold lazyHeading
  rw [occSplits_append_free hh]
  rw [show divClose ++ (g ++ (noteTextOpen ++ (b ++ (divClose ++ r)))) =
    '<' :: (str "/div>" ++ (g ++ (noteTextOpen ++ (b ++ (divClose ++ r))))) from rfl]
  simp only [occSplits, List.append_eq]
  rw [if_pos (show prefixCI ('<' :: str "/div>")
      ('<' :: (str "/div>" ++ (g ++ (noteTextOpen ++ (b ++ (divClose ++ r)))))) = true from
    prefixCI_append_of (by decide) _)]
  rw [show List.drop (str "/div>").length
      (str "/div>" ++ (g ++ (noteTextOpen ++ (b ++ (divClose ++ r))))) =
      g ++ (noteTextOpen ++ (b ++ (divClose ++ r))) from List.drop_left ..]
  simp only [List.map_cons]
  rw [List.findSome?_cons_of_isSome _ (by rw [tryBody_block b g r hb hg]; rfl)]
  rw [tryBody_block b g r hb hg]
  simp

end Kindle

namespace Kindle

/-- Counterexample to C7: the scanner does NOT allow intervening markup
between the heading block and the body block — only whitespace.  With
`<b></b>` between the two blocks the scan yields no pair at all, while the
same document with a space gap yields the pair. -/
theorem block_scan_markup_between_cx :
    scanBlocks
        (str "<div class=\"noteHeading\">H</div><b></b><div class=\"noteText\">B</div>") = [] ∧
    scanBlocks
        (str "<div class=\"noteHeading\">H</div> <div class=\"noteText\">B</div>") =
      [(str "H", str "B")] := by decide

/-- C7 (amended): the block scan yields a (heading, body) pair for each
occurrence, in document order, of a heading-class block followed — with only
whitespace (no other markup) between the two blocks — by a body-class block,
and resumes scanning immediately after each consumed match with no overlap:
for any two such blocks in sequence, with arbitrary whitespace-only gaps and
arbitrary `<`-free heading/body contents, the scan yields exactly the two
pairs in document order. -/
theorem block_scan_two_pairs (h1 b1 h2 b2 g1 g2 : Str)
    (hh1 : ∀ c ∈ h1, charCI '<' c = false) (hb1 : ∀ c ∈ b1, charCI '<' c = false)
    (hh2 : ∀ c ∈ h2, charCI '<' c = false) (hb2 : ∀ c ∈ b2, charCI '<' c = false)
    (hg1 : ∀ c ∈ g1, isJsSpace c = true) (hg2 : ∀ c ∈ g2, isJsSpace c = true) :
    scanBlocks
        (noteHeadingOpen ++ (h1 ++ (divClose ++ (g1 ++ (noteTextOpen ++ (b1 ++ (divClose ++
          (noteHeadingOpen ++ (h2 ++ (divClose ++ (g2 ++ (noteTextOpen ++ (b2 ++ divClose))))))))))))) =
      [(h1, b1), (h2, b2)] := by
  have hm2 : matchBlockAt
      (noteHeadingOpen ++ (h2 ++ (divClose ++ (g2 ++ (noteTextOpen ++ (b2 ++ divClose)))))) =
      some (h2, b2, []) := by
    have := matchBlockAt_block h2 b2 g2 [] hh2 hb2 hg2
    simpa using this
  have hm1 : matchBlockAt
      (noteHeadingOpen ++ (h1 ++ (divClose ++ (g1 ++ (noteTextOpen ++ (b1 ++ (divClose ++
        (noteHeadingOpen ++ (h2 ++ (divClose ++ (g2 ++ (noteTextOpen ++ (b2 ++ divClose)))))))))))))
      = some (h1, b1,
        noteHeadingOpen ++ (h2 ++ (divClose ++ (g2 ++ (noteTextOpen ++ (b2 ++ divClose)))))) :=
    matchBlockAt_block h1 b1 g1 _ hh1 hb1 hg1
  unfold scanBlocks
  rw [scanAux_of_match (by omega) hm1]
  rw [scanAux_of_match (by
    rw [Nat.add_sub_cancel, List.length_append]
    have : 0 < noteHeadingOpen.length := by decide
    omega) hm2]
  rw [scanAux_nil]

/-- Witness for C7 (amended): two concrete heading/body block pairs with
whitespace gaps scan to exactly the two pairs in document order. -/
theorem block_scan_two_pairs_witness :
    scanBlocks
        (noteHeadingOpen ++ (str "H1" ++ (divClose ++ (str " " ++ (noteTextOpen ++ (str "B1" ++ (divClose ++
          (noteHeadingOpen ++ (str "H2" ++ (divClose ++ (str "\n " ++ (noteTextOpen ++ (str "B2" ++ divClose))))))))))))) =
      [(str "H1", str "B1"), (str "H2", str "B2")] :=
  block_scan_two_pairs (str "H1") (str "B1") (str "H2") (str "B2") (str " ") (str "\n ")
    (by decide) (by decide) (by decide) (by decide) (by decide) (by decide)

end Kindle
